import Mathlib

/-!
# Verification of the hoard command-snippet store

Shallow embedding of the store component of `hoard` (files `src/hoard.py`,
`src/filter.py`). The store (`Trove.commands`) is a Python `dict` mapping
command names to parsed-JSON values; Python dicts are insertion-ordered with
unique keys, so the store is modelled as an association list
`List (String × Json)` together with insertion that replaces in place
(Python `d[k] = v`) and `update` that folds such insertions.

JSON text handling (`json.load` / `json.dump`) is modelled at the level of
parsed JSON trees: a file is either missing, present but not valid JSON, or
holds a JSON value, and dumping then loading a tree of the shapes used here
(finite, string-keyed, no floats) is the identity on the tree.

Python string operations used by the code are modelled on the character
sequence of the string: `a in b` is the contiguous-substring (infix)
relation, `s.startswith(p)` the prefix relation, and `s.lower()` maps
`Char.toLower` over the characters (Python's full Unicode case mapping is
restricted to the ASCII mapping; no property below hinges on non-ASCII case).
-/

namespace Hoard

/-- A parsed JSON value, as produced by Python's `json.load`: null, booleans,
numbers (only integers occur in the properties below), strings, arrays, and
objects. A parsed object is a Python dict, hence an insertion-ordered list of
string-keyed members with distinct keys. -/
inductive Json where
  | null : Json
  | bool (b : Bool) : Json
  | num (n : Int) : Json
  | str (s : String) : Json
  | arr (elems : List Json) : Json
  | obj (members : List (String × Json)) : Json

/-- Is this JSON value an object?  Models Python's `isinstance(v, dict)` on a
parsed JSON value. -/
def Json.isObj : Json → Bool
  | .obj _ => true
  | _ => false

/-- Python truthiness of a parsed JSON value, as tested by `if command:`:
`None`, `False`, `0`, `""`, `[]` and `{}` are falsy, everything else is
truthy. -/
def Json.truthy : Json → Bool
  | .null => false
  | .bool b => b
  | .num n => n != 0
  | .str s => s != ""
  | .arr es => !es.isEmpty
  | .obj ms => !ms.isEmpty

/-- The store's in-memory mapping, `Trove.commands`: a Python dict from
command name to parsed-JSON value, modelled as an insertion-ordered
association list. -/
abbrev Commands := List (String × Json)

/-- Python dict assignment `d[k] = v`: if `k` is already a key its value is
replaced in place (the key keeps its position in the insertion order),
otherwise the pair is appended at the end. -/
def dictInsert (d : List (String × Json)) (k : String) (v : Json) :
    List (String × Json) :=
  if d.any (fun p => p.1 = k) then
    d.map (fun p => if p.1 = k then (k, v) else p)
  else
    d ++ [(k, v)]

/-- Python dict lookup `d.get(k)`: the value at the first (only) occurrence
of `k`, or `None`. -/
def dictLookup (k : String) : List (String × Json) → Option Json
  | [] => none
  | (k', v) :: rest => if k' = k then some v else dictLookup k rest

/-- Python `d.update(e)` for a dict argument `e`: assign each of `e`'s pairs
into `d` in order. -/
def dictUpdate (d : List (String × Json)) (e : List (String × Json)) :
    List (String × Json) :=
  e.foldl (fun acc p => dictInsert acc p.1 p.2) d

/-- Python `s.lower()` (ASCII case mapping). -/
def lowerStr (s : String) : String :=
  ⟨s.data.map Char.toLower⟩

/-- Python `needle in hay` on strings: `needle` occurs as a contiguous
substring of `hay`. -/
def strIn (needle hay : String) : Bool :=
  decide (needle.data <:+: hay.data)

/-- Python `s.startswith(p)`. -/
def strStartsWith (s p : String) : Bool :=
  decide (p.data <+: s.data)

/-- The entry value built by `Trove.add_command`:
`{"tags": tags, "command": command, "description": description}`. -/
def mkEntry (tags : List String) (command description : String) : Json :=
  .obj [("tags", .arr (tags.map .str)),
        ("command", .str command),
        ("description", .str description)]

/-- Models `Trove.add_command(name, tags, command, description)`:
`self.commands[name] = {"tags": ..., "command": ..., "description": ...}`. -/
def add_command (cmds : Commands) (name : String) (tags : List String)
    (command description : String) : Commands :=
  dictInsert cmds name (mkEntry tags command description)

/-- Models `Trove.get_command(name)`: `self.commands.get(name)`. -/
def get_command (cmds : Commands) (name : String) : Option Json :=
  dictLookup name cmds

/-- Models `Trove.remove_command(name)`: `self.commands.pop(name, None)`. -/
def remove_command (cmds : Commands) (name : String) : Commands :=
  cmds.filter (fun p => !(p.1 = name : Bool))

/-- Models `Trove.remove_namespace(namespace)`: keep the entries whose name does not
start with `namespace`. -/
def remove_namespace (cmds : Commands) (ns : String) : Commands :=
  cmds.filter (fun p => !(strStartsWith p.1 ns))

/-! ## Listing and filtering

`Trove.list_commands` (and the identical comprehension in
`filter.filter_commands`) evaluates, for each stored entry,

`filter_str.lower() in name.lower() or
 any(filter_str.lower() in tag.lower() for tag in cmd["tags"])`.

The `or` short-circuits: when the name matches, `cmd["tags"]` is never read.
When it is read, the code assumes the entry value is an object with a
`"tags"` member holding an array of strings; on any other shape Python
raises (KeyError / TypeError), which we model with `none`.  (Python would
also happily iterate a string or a dict under `for tag in cmd["tags"]`;
that exotic shape is not modelled — no claim depends on it, and the
well-formedness hypotheses below rule it out.) -/

/-- Python `filter_str.lower() in tag.lower()` for one tag; `none` when the tag is
not a string (Python `TypeError` from `.lower()`). `fl` is the already
lowercased filter string. -/
def tagHit (fl : String) : Json → Option Bool
  | .str t => some (strIn fl (lowerStr t))
  | _ => none

/-- Python `any(filter_str.lower() in tag.lower() for tag in tags)`, short-circuit
included: tags after the first hit are not inspected. -/
def anyTagHit (fl : String) : List Json → Option Bool
  | [] => some false
  | t :: ts =>
    match tagHit fl t with
    | none => none
    | some true => some true
    | some false => anyTagHit fl ts

/-- Python `cmd["tags"]` followed by iterating it as a list: the `"tags"` member of
an object entry, provided it is an array. -/
def getTags : Json → Option (List Json)
  | .obj kvs =>
    match dictLookup "tags" kvs with
    | some (.arr ts) => some ts
    | _ => none
  | _ => none

/-- The per-entry filter condition of `Trove.list_commands` /
`filter.filter_commands`, with Python's `or` short-circuit: the tags are
only read when the name does not match. -/
def matchesFilter (f name : String) (cmd : Json) : Option Bool :=
  if strIn (lowerStr f) (lowerStr name) then some true
  else
    match getTags cmd with
    | some ts => anyTagHit (lowerStr f) ts
    | none => none

/-- The list comprehension of `Trove.list_commands` with a non-empty filter:
keep the entries whose condition evaluates to true; if the condition raises
on any entry the whole comprehension raises (`none`). Each kept record is
`{"name": name, **cmd}`; we keep the `(name, cmd)` pair, which carries the
same data (for entries without their own `"name"` member, which none of the
well-formed entries have). -/
def filterMatches (f : String) : Commands → Option Commands
  | [] => some []
  | (n, c) :: rest =>
    match matchesFilter f n c with
    | none => none
    | some b =>
      match filterMatches f rest with
      | none => none
      | some r => some (if b then (n, c) :: r else r)

/-- Models `Trove.list_commands(filter_str, ...)`, record-producing part: Python's
`if filter_str:` treats both `None` and the empty string as "no filter".
`none` models an exception escaping the comprehension. -/
def list_commands (cmds : Commands) (filt : Option String) : Option Commands :=
  match filt with
  | none => some cmds
  | some f => if f = "" then some cmds else filterMatches f cmds

/-- The `simple_output` format of `Trove.list_commands`:
`"\n".join(cmd["name"] for cmd in commands)` over the produced records. -/
def list_simple (cmds : Commands) (filt : Option String) : Option String :=
  (list_commands cmds filt).map (fun l => String.intercalate "\n" (l.map (·.1)))

/-! ## Files: load, import, export, edit, settings -/

/-- What `open(path)` + `json.load` can encounter: no file
(`FileNotFoundError`), a file whose text is not valid JSON
(`json.JSONDecodeError`), or a parsed JSON value. -/
inductive FileData where
  | missing : FileData
  | malformed : FileData
  | content (j : Json) : FileData

/-- Models `Trove.load_trove_file(path)`: on `FileNotFoundError` or
`JSONDecodeError` return a fresh empty trove; on a parsed object keep
exactly the members whose value is a dict
(`{k: v for k, v in data.items() if isinstance(v, dict)}`); on a parsed
non-object value `data.items()` raises `AttributeError`, which the method
does not catch (`none` = the exception escapes to the caller). -/
def load_trove_file : FileData → Option Commands
  | .missing => some []
  | .malformed => some []
  | .content (.obj kvs) => some (kvs.filter (fun p => p.2.isObj))
  | .content _ => none

/-- Diagnostic printed by `Hoard.import_trove`. -/
inductive ImportOutcome where
  | imported : ImportOutcome
  | fileNotFound : ImportOutcome
  | invalidJson : ImportOutcome
  | raised : ImportOutcome
deriving DecidableEq, Repr

/-- Models `Hoard.import_trove(path)`: parse the file, then
`self.trove.commands.update(imported_trove)` and save. `FileNotFoundError`
prints "File not found", `JSONDecodeError` prints "Invalid JSON in file";
both are caught before any mutation.  A parsed non-object top-level value is
handed to `dict.update`, which raises for the shapes occurring below
(numbers, strings, non-pair arrays) before or instead of merging; this
uncaught branch is modelled coarsely as `raised` with the mapping returned
unchanged, and no claim depends on it. Returns the resulting mapping and the
diagnostic. -/
def import_trove (cmds : Commands) : FileData → Commands × ImportOutcome
  | .missing => (cmds, .fileNotFound)
  | .malformed => (cmds, .invalidJson)
  | .content (.obj kvs) => (dictUpdate cmds kvs, .imported)
  | .content _ => (cmds, .raised)

/-- Models `Hoard.export_command(path)`: `json.dump(self.trove.commands, f)` — the
file afterwards holds the JSON object whose members are exactly the store's
mapping (dump then load is the identity on such trees). -/
def export_command (cmds : Commands) : FileData :=
  .content (.obj cmds)

/-- Outcome of `Hoard.edit_command`. -/
inductive EditOutcome where
  | notFound : EditOutcome
  | raisedParseError : EditOutcome
  | updated : EditOutcome
deriving DecidableEq, Repr

/-- Models `Hoard.edit_command(name)`: `command = get_command(name)` followed
by Python's truthiness guard `if command:` — the else branch ("Command not
found", no mutation) is taken both when the name is absent and when the
stored value is falsy (e.g. the empty object `load` keeps, or `0`/`""`/`[]`
stored by an import or a previous edit). On a truthy entry the value is
written to a scratch file and the editor runs; `edited` is the scratch
file's content when the editor exits, parsed: `none` when `json.load(tf)`
raises `JSONDecodeError` (uncaught, so the store assignment and save never
run), `some j` when it parses, in which case
`self.trove.commands[name] = updated_command` stores `j` unvalidated and
saves. Returns the resulting mapping and the outcome. -/
def edit_command (cmds : Commands) (name : String) (edited : Option Json) :
    Commands × EditOutcome :=
  match get_command cmds name with
  | some c =>
    if c.truthy then
      match edited with
      | none => (cmds, .raisedParseError)
      | some j => (dictInsert cmds name j, .updated)
    else (cmds, .notFound)
  | none => (cmds, .notFound)

/-- Models `Hoard.set_parameter_token(token)`: if the settings file exists it is
parsed (`json.load` — a `JSONDecodeError` escapes uncaught, `none`);
`config['parameter_token'] = token` requires the parsed value to be a dict
(otherwise `TypeError` escapes, `none`); then the dict is written back.
Returns the members of the settings object written back, or `none` when the
call raises before writing. -/
def set_parameter_token (prior : FileData) (token : String) :
    Option (List (String × Json)) :=
  match prior with
  | .missing => some (dictInsert [] "parameter_token" (.str token))
  | .malformed => none
  | .content (.obj kvs) => some (dictInsert kvs "parameter_token" (.str token))
  | .content _ => none

/-- Modelled from the spec: a "valid entry record" per the data model —
an object whose `tags` is an array of strings and whose `command` and
`description` are strings. The source has no such validation (that is the
point of the claim it serves); this definition follows the spec's words
only and is used solely to state what the code fails to check. -/
def specValidEntry : Json → Bool
  | .obj kvs =>
    (match dictLookup "tags" kvs with
      | some (.arr ts) => ts.all (fun t => match t with | .str _ => true | _ => false)
      | _ => false) &&
    (match dictLookup "command" kvs with
      | some (.str _) => true
      | _ => false) &&
    (match dictLookup "description" kvs with
      | some (.str _) => true
      | _ => false)
  | _ => false

/-- Well-formed stored entry, as the listing code assumes it: an object
whose `"tags"` member is an array of strings. -/
def wfEntry (cmd : Json) : Bool :=
  match getTags cmd with
  | some ts => ts.all (fun t => match t with | .str _ => true | _ => false)
  | none => false

/-! ## Dictionary lemmas -/

/-- Key membership decides the branch taken by `dictInsert`. -/
theorem anyKey_eq_true_iff (d : List (String × Json)) (k : String) :
    d.any (fun p => p.1 = k) = true ↔ k ∈ d.map Prod.fst := by
  simp [List.any_eq_true, List.mem_map]

/-- Association-list lookup scans the left part first. -/
theorem dictLookup_append (d e : List (String × Json)) (k : String) :
    dictLookup k (d ++ e) =
      match dictLookup k d with
      | some v => some v
      | none => dictLookup k e := by
  induction d with
  | nil => simp [dictLookup]
  | cons p rest ih =>
    by_cases hp : p.1 = k
    · simp [dictLookup, hp]
    · simpa [dictLookup, hp] using ih

/-- Lookup of an absent key fails. -/
theorem dictLookup_eq_none_of_not_mem (d : List (String × Json)) (k : String)
    (h : k ∉ d.map Prod.fst) : dictLookup k d = none := by
  induction d with
  | nil => rfl
  | cons p rest ih =>
    have hp : p.1 ≠ k := by
      intro he
      exact h (by simp [he])
    have hrest : k ∉ rest.map Prod.fst := by
      intro hm
      exact h (by simp [hm])
    simpa [dictLookup, hp] using ih hrest

/-- Lookup after the in-place replacement `dictInsert` performs on an
already-present key. -/
theorem dictLookup_replace (d : List (String × Json)) (k : String) (v : Json) :
    dictLookup k (d.map (fun p => if p.1 = k then (k, v) else p)) =
      if d.any (fun p => p.1 = k) then some v else none := by
  induction d with
  | nil => simp [dictLookup]
  | cons p rest ih =>
    by_cases hp : p.1 = k
    · simp only [List.map_cons, if_pos hp, List.any_cons]
      simp [dictLookup, hp]
    · simp only [List.map_cons, if_neg hp, List.any_cons]
      have hd : (decide (p.1 = k)) = false := by simp [hp]
      simp [dictLookup, hp, ih]
      rw [hd, Bool.false_or]

/-- The in-place replacement at key `k'` does not affect lookups at other
keys. -/
theorem dictLookup_replace_ne (d : List (String × Json)) (k k' : String)
    (v : Json) (h : k' ≠ k) :
    dictLookup k (d.map (fun p => if p.1 = k' then (k', v) else p)) =
      dictLookup k d := by
  induction d with
  | nil => rfl
  | cons p rest ih =>
    by_cases hp : p.1 = k'
    · have hpk : p.1 ≠ k := by
        rw [hp]; exact h
      simp only [List.map_cons, if_pos hp]
      simp [dictLookup, h, hpk, ih]
    · simp only [List.map_cons, if_neg hp]
      by_cases hpk : p.1 = k
      · simp [dictLookup, hpk]
      · simp [dictLookup, hpk, ih]

/-- Looking up the key just assigned returns the new value. -/
theorem dictLookup_dictInsert_self (d : List (String × Json)) (k : String)
    (v : Json) : dictLookup k (dictInsert d k v) = some v := by
  unfold dictInsert
  by_cases hany : d.any (fun p => p.1 = k) = true
  · rw [if_pos hany, dictLookup_replace]
    simp [hany]
  · rw [if_neg hany]
    have hnm : k ∉ d.map Prod.fst := fun hm =>
      hany ((anyKey_eq_true_iff d k).mpr hm)
    rw [dictLookup_append, dictLookup_eq_none_of_not_mem d k hnm]
    simp [dictLookup]

/-- Assigning one key leaves the lookup of every other key unchanged. -/
theorem dictLookup_dictInsert_ne (d : List (String × Json)) (k k' : String)
    (v : Json) (h : k' ≠ k) :
    dictLookup k (dictInsert d k' v) = dictLookup k d := by
  unfold dictInsert
  by_cases hany : d.any (fun p => p.1 = k') = true
  · rw [if_pos hany, dictLookup_replace_ne d k k' v h]
  · rw [if_neg hany]
    rw [dictLookup_append]
    have hsingle : dictLookup k [(k', v)] = none := by
      simp [dictLookup, h]
    rw [hsingle]
    cases dictLookup k d <;> rfl

/-- Assigning to a key that is already present keeps the key sequence (the
insertion order) unchanged. -/
theorem dictInsert_map_fst_of_mem (d : List (String × Json)) (k : String)
    (v : Json) (h : k ∈ d.map Prod.fst) :
    (dictInsert d k v).map Prod.fst = d.map Prod.fst := by
  unfold dictInsert
  rw [if_pos ((anyKey_eq_true_iff d k).mpr h)]
  rw [List.map_map]
  apply List.map_congr_left
  intro p _
  by_cases hp : p.1 = k
  · simp [hp]
  · simp [hp]

/-- Assigning a fresh key appends the pair at the end. -/
theorem dictInsert_of_not_mem (d : List (String × Json)) (k : String)
    (v : Json) (h : k ∉ d.map Prod.fst) :
    dictInsert d k v = d ++ [(k, v)] := by
  unfold dictInsert
  rw [if_neg (fun ha => h ((anyKey_eq_true_iff d k).mp ha))]

/-- Updating with pairwise-distinct keys that are all fresh for the receiver
appends the pairs in order. -/
theorem dictUpdate_eq_append (e : List (String × Json)) :
    ∀ d : List (String × Json), (e.map Prod.fst).Nodup →
    (∀ k ∈ e.map Prod.fst, k ∉ d.map Prod.fst) →
    dictUpdate d e = d ++ e := by
  induction e with
  | nil => intro d _ _; simp [dictUpdate]
  | cons p rest ih =>
    intro d hnd hdisj
    have hfresh : p.1 ∉ d.map Prod.fst := hdisj p.1 (by simp)
    have step : dictUpdate d (p :: rest) = dictUpdate (d ++ [p]) rest := by
      simp [dictUpdate, dictInsert_of_not_mem d p.1 p.2 hfresh]
    rw [step]
    have hnd2 : (p.1 :: rest.map Prod.fst).Nodup := by
      simpa using hnd
    have hphead : p.1 ∉ rest.map Prod.fst := (List.nodup_cons.mp hnd2).1
    have hdisj' : ∀ k ∈ rest.map Prod.fst, k ∉ (d ++ [p]).map Prod.fst := by
      intro k hk hmem
      rcases (by simpa using hmem : k ∈ d.map Prod.fst ∨ k = p.1) with hd | hp
      · exact hdisj k (by simp [hk]) hd
      · exact hphead (hp ▸ hk)
    rw [ih (d ++ [p]) hnd2.of_cons hdisj']
    simp

/-! ## Listing lemmas -/

/-- Claim-side per-entry match: the (lowercased) filter occurs in the
lowercased name, or in at least one lowercased tag. -/
def entryMatches (f : String) (p : String × Json) : Bool :=
  strIn (lowerStr f) (lowerStr p.1) ||
    (match getTags p.2 with
     | some ts => ts.any (fun t => match t with
        | .str s => strIn (lowerStr f) (lowerStr s)
        | _ => false)
     | none => false)

/-- On an array of string tags the short-circuit scan computes the total
disjunction. -/
theorem anyTagHit_eq_any (fl : String) (ts : List Json)
    (h : ts.all (fun t => match t with | .str _ => true | _ => false) = true) :
    anyTagHit fl ts =
      some (ts.any (fun t => match t with
        | .str s => strIn fl (lowerStr s)
        | _ => false)) := by
  induction ts with
  | nil => rfl
  | cons t rest ih =>
    simp only [List.all_cons, Bool.and_eq_true] at h
    cases t with
    | str s =>
      simp only [anyTagHit, tagHit]
      cases hs : strIn fl (lowerStr s)
      · simp [List.any_cons, hs, ih h.2]
      · simp [List.any_cons, hs]
    | null => simp at h
    | bool b => simp at h
    | num n => simp at h
    | arr es => simp at h
    | obj ms => simp at h

/-- On a well-formed entry the short-circuit filter condition evaluates to
the total per-entry match. -/
theorem matchesFilter_eq (f n : String) (cmd : Json) (h : wfEntry cmd = true) :
    matchesFilter f n cmd = some (entryMatches f (n, cmd)) := by
  cases hb : strIn (lowerStr f) (lowerStr n) with
  | true => simp [matchesFilter, entryMatches, hb]
  | false =>
    unfold wfEntry at h
    cases hg : getTags cmd with
    | none => rw [hg] at h; simp at h
    | some ts =>
      rw [hg] at h
      have hts : ts.all (fun t => match t with
          | .str _ => true | _ => false) = true := h
      simp [matchesFilter, entryMatches, hb, hg, anyTagHit_eq_any (lowerStr f) ts hts]

/-- The boolean per-entry match, characterised as the claim states it:
case-insensitive substring occurrence in the name or in some tag. -/
theorem entryMatches_eq_true_iff (f n : String) (cmd : Json)
    (h : wfEntry cmd = true) :
    entryMatches f (n, cmd) = true ↔
      ((lowerStr f).data <:+: (lowerStr n).data ∨
        ∃ ts, getTags cmd = some ts ∧
          ∃ s, Json.str s ∈ ts ∧ (lowerStr f).data <:+: (lowerStr s).data) := by
  unfold wfEntry at h
  cases hg : getTags cmd with
  | none => rw [hg] at h; simp at h
  | some ts =>
    rw [hg] at h
    simp only [entryMatches, hg, Bool.or_eq_true, strIn, decide_eq_true_eq,
      List.any_eq_true]
    constructor
    · rintro (hname | ⟨t, ht, hmatch⟩)
      · exact Or.inl hname
      · cases t with
        | str s =>
          refine Or.inr ⟨ts, rfl, s, ht, ?_⟩
          simpa using hmatch
        | null => simp at hmatch
        | bool b => simp at hmatch
        | num m => simp at hmatch
        | arr es => simp at hmatch
        | obj ms => simp at hmatch
    · rintro (hname | ⟨ts', hts', s, hs, hsub⟩)
      · exact Or.inl hname
      · cases hts'
        exact Or.inr ⟨Json.str s, hs, by simpa using hsub⟩

/-- With every entry well formed, the comprehension succeeds and keeps
exactly the matching entries, in order. -/
theorem filterMatches_eq_filter (f : String) (cmds : Commands)
    (h : ∀ p ∈ cmds, wfEntry p.2 = true) :
    filterMatches f cmds = some (cmds.filter (entryMatches f)) := by
  induction cmds with
  | nil => rfl
  | cons p rest ih =>
    obtain ⟨n, c⟩ := p
    have hw : wfEntry c = true := h (n, c) (by simp)
    have hrest : ∀ q ∈ rest, wfEntry q.2 = true := fun q hq => h q (by simp [hq])
    simp only [filterMatches, matchesFilter_eq f n c hw, ih hrest]
    cases hb : entryMatches f (n, c)
    · simp [List.filter_cons, hb]
    · simp [List.filter_cons, hb]

/-- Whatever the comprehension produces is a subsequence of the stored
entries: order is preserved, nothing is reordered. -/
theorem filterMatches_sublist (f : String) (cmds l : Commands)
    (h : filterMatches f cmds = some l) : l.Sublist cmds := by
  induction cmds generalizing l with
  | nil =>
    simp only [filterMatches] at h
    cases h
    exact List.Sublist.refl []
  | cons p rest ih =>
    obtain ⟨n, c⟩ := p
    simp only [filterMatches] at h
    cases hm : matchesFilter f n c with
    | none => rw [hm] at h; cases h
    | some b =>
      rw [hm] at h
      cases hr : filterMatches f rest with
      | none => rw [hr] at h; cases h
      | some r =>
        rw [hr] at h
        cases b with
        | false =>
          simp only [if_neg Bool.false_ne_true] at h
          cases h
          exact (ih _ hr).cons (n, c)
        | true =>
          simp only [if_pos rfl] at h
          cases h
          exact (ih _ hr).cons₂ (n, c)

/-! ## Claims -/

/-- C1: exporting a store with `export_command` and import-merging the
exported file into a fresh empty store reproduces the original mapping
exactly — same names mapped to the same values (tags, command,
description). The `Nodup` hypothesis is the Python-dict invariant that the
store's keys are distinct. -/
theorem export_import_roundtrip (cmds : Commands)
    (h : (cmds.map Prod.fst).Nodup) :
    import_trove [] (export_command cmds) = (cmds, .imported) := by
  show (dictUpdate [] cmds, ImportOutcome.imported) = (cmds, .imported)
  rw [dictUpdate_eq_append cmds [] h (by simp)]
  simp

/-- Witness for C1 on a concrete two-entry store. -/
theorem export_import_roundtrip_witness :
    (([("a", mkEntry ["x"] "cmd-a" "da"), ("b", mkEntry [] "cmd-b" "db")].map
        Prod.fst).Nodup) ∧
    import_trove [] (export_command
        [("a", mkEntry ["x"] "cmd-a" "da"), ("b", mkEntry [] "cmd-b" "db")]) =
      ([("a", mkEntry ["x"] "cmd-a" "da"), ("b", mkEntry [] "cmd-b" "db")],
        .imported) :=
  ⟨by decide, export_import_roundtrip _ (by decide)⟩

/-- C2: when the import file is missing or its content is malformed JSON,
`import_trove` returns the store mapping unchanged — nothing added, removed
or partially merged — and reports the file-not-found resp. invalid-JSON
diagnostic. -/
theorem import_failure_preserves_store (cmds : Commands) :
    import_trove cmds .missing = (cmds, .fileNotFound) ∧
    import_trove cmds .malformed = (cmds, .invalidJson) :=
  ⟨rfl, rfl⟩

/-- C3: with a non-empty filter string and well-formed entries,
`list_commands` returns exactly the entries whose name contains the filter
as a case-insensitive substring or that have at least one tag containing it
as a case-insensitive substring; entries matching neither are excluded. -/
theorem list_filter_exact (cmds : Commands) (f : String)
    (hwf : ∀ p ∈ cmds, wfEntry p.2 = true) (hne : f ≠ "") :
    list_commands cmds (some f) = some (cmds.filter (entryMatches f)) ∧
    ∀ n c, (n, c) ∈ cmds →
      ((n, c) ∈ cmds.filter (entryMatches f) ↔
        ((lowerStr f).data <:+: (lowerStr n).data ∨
          ∃ ts, getTags c = some ts ∧
            ∃ s, Json.str s ∈ ts ∧
              (lowerStr f).data <:+: (lowerStr s).data)) := by
  constructor
  · simp only [list_commands, if_neg hne]
    exact filterMatches_eq_filter f cmds hwf
  · intro n c hmem
    have hw := hwf (n, c) hmem
    rw [List.mem_filter, entryMatches_eq_true_iff f n c hw]
    constructor
    · rintro ⟨_, h2⟩
      exact h2
    · intro h2
      exact ⟨hmem, h2⟩

/-- Witness for C3: filter `"GIT"` against a store with an entry named
`git-log` and another only tagged `ops`. -/
theorem list_filter_exact_witness :
    (∀ p ∈ [("git-log", mkEntry ["Git"] "git log" "show log"),
            ("deploy", mkEntry ["ops"] "kubectl apply" "deploy")],
        wfEntry p.2 = true) ∧
    ("GIT" : String) ≠ "" ∧
    list_commands [("git-log", mkEntry ["Git"] "git log" "show log"),
            ("deploy", mkEntry ["ops"] "kubectl apply" "deploy")]
        (some "GIT") =
      some ([("git-log", mkEntry ["Git"] "git log" "show log"),
            ("deploy", mkEntry ["ops"] "kubectl apply" "deploy")].filter
        (entryMatches "GIT")) :=
  ⟨by decide, by decide, (list_filter_exact _ "GIT" (by decide) (by decide)).1⟩

/-- C4: `add` inserts or overwrites under the name with no uniqueness error
(it succeeds on every store, so the last write wins), and a subsequent `get`
of that name returns exactly the stored tags, command and description. -/
theorem add_then_get_exact (cmds : Commands) (name : String)
    (tags : List String) (command description : String) :
    get_command (add_command cmds name tags command description) name =
      some (mkEntry tags command description) :=
  dictLookup_dictInsert_self cmds name _

/-- C5: `remove_namespace` removes exactly the entries whose name starts
with the prefix under case-sensitive comparison and keeps every other entry
(names merely containing the prefix elsewhere survive), preserving their
order. -/
theorem remove_namespace_exact (cmds : Commands) (ns : String) :
    (∀ k v, (k, v) ∈ remove_namespace cmds ns ↔
      ((k, v) ∈ cmds ∧ ¬ ns.data <+: k.data)) ∧
    (remove_namespace cmds ns).Sublist cmds := by
  constructor
  · intro k v
    simp [remove_namespace, List.mem_filter, strStartsWith]
  · exact List.filter_sublist _

/-- C6: whatever `list_commands` outputs, with or without a filter, is a
subsequence of the stored entries in store order (no sorting or
reordering), and the simple output format renders exactly those names in
the same order. -/
theorem list_preserves_insertion_order (cmds : Commands)
    (filt : Option String) (l : Commands)
    (h : list_commands cmds filt = some l) :
    l.Sublist cmds ∧
    list_simple cmds filt =
      some (String.intercalate "\n" (l.map Prod.fst)) := by
  constructor
  · cases filt with
    | none =>
      simp only [list_commands] at h
      cases h
      exact List.Sublist.refl _
    | some f =>
      by_cases hf : f = ""
      · simp only [list_commands, if_pos hf] at h
        cases h
        exact List.Sublist.refl _
      · simp only [list_commands, if_neg hf] at h
        exact filterMatches_sublist f cmds l h
  · simp [list_simple, h]

/-- Witness for C6 on a concrete filtered listing. -/
theorem list_preserves_insertion_order_witness :
    list_commands [("b", mkEntry ["t"] "cb" "db"), ("a", mkEntry [] "ca" "da")]
        (some "b") =
      some [("b", mkEntry ["t"] "cb" "db")] ∧
    ([("b", mkEntry ["t"] "cb" "db")] : Commands).Sublist
      [("b", mkEntry ["t"] "cb" "db"), ("a", mkEntry [] "ca" "da")] :=
  ⟨rfl, (list_preserves_insertion_order
      [("b", mkEntry ["t"] "cb" "db"), ("a", mkEntry [] "ca" "da")]
      (some "b") [("b", mkEntry ["t"] "cb" "db")] rfl).1⟩

/-- C7 counterexample: a file whose text parses to a JSON value that is not
an object makes `load_trove_file` raise (`data.items()` on a non-dict is an
uncaught `AttributeError`, modelled as `none`) instead of returning a
store, refuting "never fails the caller". -/
theorem load_crashes_on_nonobject :
    load_trove_file (.content (.arr [.num 1, .num 2])) = none := rfl

/-- C7 amended: `load` returns an empty store when the file is absent or
its text is not parseable JSON; when the content parses to an object it
keeps exactly the members whose value is an object, discarding the rest
silently; but when the content parses to a non-object value the call
raises an uncaught error instead of returning a store. -/
theorem load_trove_file_amended :
    load_trove_file .missing = some [] ∧
    load_trove_file .malformed = some [] ∧
    (∀ kvs, load_trove_file (.content (.obj kvs)) =
      some (kvs.filter (fun p => p.2.isObj))) ∧
    (∀ j, j.isObj = false → load_trove_file (.content j) = none) := by
  refine ⟨rfl, rfl, fun kvs => rfl, ?_⟩
  intro j hj
  cases j with
  | obj ms => simp [Json.isObj] at hj
  | null => rfl
  | bool b => rfl
  | num n => rfl
  | str s => rfl
  | arr es => rfl

/-- Witness for C7 amended at a concrete non-object content. -/
theorem load_trove_file_amended_witness :
    Json.isObj (.num 3) = false ∧
    load_trove_file (.content (.num 3)) = none :=
  ⟨rfl, load_trove_file_amended.2.2.2 (.num 3) rfl⟩

/-- C8 counterexample: post-edit scratch content `5` parses as JSON but is
not a valid entry record, yet `edit_command` replaces the stored entry with
it and reports success — the original entry is not preserved and no failure
is surfaced, refuting the claim as stated. -/
theorem edit_stores_nonrecord_counterexample :
    specValidEntry (.num 5) = false ∧
    edit_command [("a", mkEntry ["t"] "c" "d")] "a" (some (.num 5)) =
      ([("a", .num 5)], .updated) ∧
    ¬ (edit_command [("a", mkEntry ["t"] "c" "d")] "a" (some (.num 5))).1 =
      [("a", mkEntry ["t"] "c" "d")] := by
  refine ⟨rfl, rfl, ?_⟩
  intro h
  have h1 : ([("a", Json.num 5)] : Commands) =
      [("a", mkEntry ["t"] "c" "d")] := h
  injection h1 with h2 _
  injection h2 with _ h3
  exact Json.noConfusion h3

/-- C8 amended: when the stored value under the name is truthy (every
non-empty entry record is), a post-edit scratch content that is not
parseable JSON makes the parse error escape uncaught (surfaced by the
top-level handler) with the mapping unchanged and nothing saved, while
content that parses to any JSON value replaces the entry unvalidated; a
falsy stored value is reported as not found and the mapping is unchanged
whatever the scratch content. -/
theorem edit_parse_failure_amended (cmds : Commands) (name : String)
    (c : Json) (h : get_command cmds name = some c) :
    (c.truthy = true →
      edit_command cmds name none = (cmds, .raisedParseError) ∧
      ∀ j, edit_command cmds name (some j) =
        (dictInsert cmds name j, .updated)) ∧
    (c.truthy = false →
      ∀ edited, edit_command cmds name edited = (cmds, .notFound)) := by
  constructor
  · intro ht
    constructor
    · unfold edit_command
      rw [h]
      simp [ht]
    · intro j
      unfold edit_command
      rw [h]
      simp [ht]
  · intro hf edited
    unfold edit_command
    rw [h]
    simp [hf]

/-- Witness for C8 amended on a concrete one-entry store with a truthy
entry. -/
theorem edit_parse_failure_amended_witness :
    get_command [("a", mkEntry [] "c" "d")] "a" = some (mkEntry [] "c" "d") ∧
    Json.truthy (mkEntry [] "c" "d") = true ∧
    edit_command [("a", mkEntry [] "c" "d")] "a" none =
      ([("a", mkEntry [] "c" "d")], .raisedParseError) :=
  ⟨rfl, rfl, ((edit_parse_failure_amended [("a", mkEntry [] "c" "d")] "a"
      (mkEntry [] "c" "d") rfl).1 rfl).1⟩

/-- C9 counterexample: an existing settings file that is malformed JSON
makes `set_parameter_token` raise in `json.load`, and one that parses to a
non-object value (here the array `[1]`) makes the item assignment
`config['parameter_token'] = token` raise `TypeError`; in both cases the
call raises before writing, no settings file containing the new token is
produced, and the claim fails for these prior contents. -/
theorem set_parameter_token_failure_counterexample :
    set_parameter_token .malformed "tok" = none ∧
    set_parameter_token (.content (.arr [.num 1])) "tok" = none :=
  ⟨rfl, rfl⟩

/-- C9 amended: when the prior settings file is absent or parses as a JSON
object, the written-back settings object maps `parameter_token` to the new
token and preserves every other key with its prior value; a prior file
that is malformed JSON or parses to a non-object value makes the call
raise before writing anything. -/
theorem set_parameter_token_amended (kvs : List (String × Json))
    (token k : String) (hk : k ≠ "parameter_token") :
    set_parameter_token .missing token =
      some [("parameter_token", .str token)] ∧
    set_parameter_token (.content (.obj kvs)) token =
      some (dictInsert kvs "parameter_token" (.str token)) ∧
    dictLookup "parameter_token"
        (dictInsert kvs "parameter_token" (.str token)) =
      some (.str token) ∧
    dictLookup k (dictInsert kvs "parameter_token" (.str token)) =
      dictLookup k kvs ∧
    set_parameter_token .malformed token = none ∧
    (∀ j, j.isObj = false →
      set_parameter_token (.content j) token = none) := by
  refine ⟨rfl, rfl, dictLookup_dictInsert_self kvs _ _, ?_, rfl, ?_⟩
  · exact dictLookup_dictInsert_ne kvs k "parameter_token" _ (Ne.symm hk)
  · intro j hj
    cases j with
    | obj ms => simp [Json.isObj] at hj
    | null => rfl
    | bool b => rfl
    | num n => rfl
    | str s => rfl
    | arr es => rfl

/-- Witness for C9 amended with one unrelated prior key. -/
theorem set_parameter_token_amended_witness :
    ("other" : String) ≠ "parameter_token" ∧
    dictLookup "other"
        (dictInsert [("other", .num 1)] "parameter_token" (.str "tok")) =
      dictLookup "other" [("other", .num 1)] :=
  ⟨by decide, (set_parameter_token_amended [("other", .num 1)] "tok" "other"
      (by decide)).2.2.2.1⟩

/-- C10: overwriting an already-present name via `add` keeps the store's
name sequence unchanged — the entry keeps its position instead of moving to
the end, so the observable listing order after the overwrite equals the
order before it. -/
theorem add_overwrite_keeps_order (cmds : Commands) (name : String)
    (tags : List String) (command description : String)
    (h : name ∈ cmds.map Prod.fst) :
    (add_command cmds name tags command description).map Prod.fst =
      cmds.map Prod.fst :=
  dictInsert_map_fst_of_mem cmds name _ h

/-- Witness for C10: overwriting the first of two entries. -/
theorem add_overwrite_keeps_order_witness :
    ("a" : String) ∈
      ([("a", mkEntry [] "c" "d"), ("b", mkEntry [] "e" "f")].map Prod.fst) ∧
    (add_command [("a", mkEntry [] "c" "d"), ("b", mkEntry [] "e" "f")] "a"
        ["new"] "nc" "nd").map Prod.fst =
      [("a", mkEntry [] "c" "d"), ("b", mkEntry [] "e" "f")].map Prod.fst :=
  ⟨by decide, add_overwrite_keeps_order _ _ _ _ _ (by decide)⟩

end Hoard
